import Mathlib

/-!
Shallow embedding of the KeraDB Go SDK's in-process query/update engine
(`keradb.go`): the dynamic value model, the filter evaluator
(`matchesFilter` and the comparison helpers), the update applier
(`applyUpdate`), the pagination cursor, and the collection facade
(`FindOne`, `Find`, `InsertOne`/`InsertMany`, `UpdateOne`/`UpdateMany`,
`DeleteOne`/`DeleteMany`).  The external Rust storage engine is reached
only through a narrow FFI boundary; it is modelled either parametrically
(an arbitrary `FFI` record) or, where a concrete store is needed,
faithfully to the design document's store-boundary contract.

Modelling conventions:
* Go `interface{}` values are the inductive `Value`.  Go type assertions
  test *exact* dynamic types, so the named map type `M`, the unnamed
  `map[string]interface{}`, `[]interface{}` and `[]M` are four distinct
  constructors.
* Go `float64` is modelled exactly by `ℚ`; no claim settled here depends
  on rounding, NaN or infinities.  Go `int` is `Int`.
* Go maps are association lists; reading a missing key yields the zero
  value `nil`, modelled as `Value.vnull` (exactly as Go's one-armed map
  read used by the source).  Go's unspecified map iteration order becomes
  the list order; every theorem below is either order-independent or uses
  a single-key map.
* A Go runtime panic (string index out of range on `key[0]`/`op[0]`) is
  modelled as `Option.none`.
-/

namespace KeraDB

/-- Dynamic value universe of the Go SDK: the `interface{}` values that
`matchesFilter`/`applyUpdate` dispatch on via type assertions. -/
inductive Value : Type where
  /-- Go `nil` (also JSON `null`, and the zero value of a missing map key). -/
  | vnull : Value
  /-- Go `bool`. -/
  | vbool (b : Bool) : Value
  /-- Go `int`. -/
  | vint (n : Int) : Value
  /-- Go `float64`, modelled exactly. -/
  | vfloat (q : ℚ) : Value
  /-- Go `string`. -/
  | vstr (s : String) : Value
  /-- Go `[]interface{}`. -/
  | varr (xs : List Value) : Value
  /-- Go `keradb.M` (the named map type used for filters/updates). -/
  | vmapM (m : List (String × Value)) : Value
  /-- Go unnamed `map[string]interface{}` (e.g. JSON-decoded nested maps);
  a type assertion to `M` fails on it. -/
  | vmapU (m : List (String × Value)) : Value
  /-- Go `[]M` (a slice of the named map type). -/
  | varrM (xs : List (List (String × Value))) : Value
  deriving Repr

/-- A stored document: Go `keradb.Document = map[string]interface{}`. -/
abbrev Document : Type := List (String × Value)

/-- Go `keradb.M = map[string]interface{}`: filter and update expressions. -/
abbrev M : Type := List (String × Value)

/-- Go map read with comma-ok: first binding of `k`, if any. -/
def mfind? (m : List (String × Value)) (k : String) : Option Value :=
  (m.find? (fun p => p.1 == k)).map Prod.snd

/-- Go one-armed map read `m[k]`: the binding, or the zero value `nil`. -/
def mget (m : List (String × Value)) (k : String) : Value :=
  (mfind? m k).getD .vnull

/-- Whether the Go map has a binding for `k`. -/
def mhasB (m : List (String × Value)) (k : String) : Bool :=
  m.any (fun p => p.1 == k)

/-- Rebinding of one map entry during a write: the entry for `k` gets the
new value, every other entry is unchanged. -/
def msetEntry (k : String) (v : Value) (p : String × Value) :
    String × Value :=
  if p.1 == k then (k, v) else p

/-- Go map write `m[k] = v`: replace the binding in place, or append. -/
def mset (m : List (String × Value)) (k : String) (v : Value) :
    List (String × Value) :=
  if mhasB m k then m.map (msetEntry k v) else m ++ [(k, v)]

/-- Go map delete `delete(m, k)`. -/
def mdel (m : List (String × Value)) (k : String) : List (String × Value) :=
  m.filter (fun p => p.1 != k)

/-- Keys of `b` that must also be present in `a` for map deep equality. -/
def keysIncluded (b a : List (String × Value)) : Bool :=
  b.all (fun p => mhasB a p.1)

mutual

/-- Model of `reflect.DeepEqual` restricted to the `Value` universe:
structural equality, where values of different dynamic types are never
equal and maps compare by their key/value bindings, not entry order. -/
def deepEqual : Value → Value → Bool
  | .vnull, .vnull => true
  | .vbool a, .vbool b => a == b
  | .vint a, .vint b => a == b
  | .vfloat a, .vfloat b => a == b
  | .vstr a, .vstr b => a == b
  | .varr xs, .varr ys => deepEqualList xs ys
  | .vmapM a, .vmapM b => deepEqualMapAB a b && keysIncluded b a
  | .vmapU a, .vmapU b => deepEqualMapAB a b && keysIncluded b a
  | .varrM xs, .varrM ys => deepEqualMapList xs ys
  | _, _ => false

/-- Element-wise deep equality of two Go slices (`[]interface{}`). -/
def deepEqualList : List Value → List Value → Bool
  | [], [] => true
  | x :: xs, y :: ys => deepEqual x y && deepEqualList xs ys
  | _, _ => false

/-- Element-wise deep equality of two `[]M` slices. -/
def deepEqualMapList : List (List (String × Value)) →
    List (List (String × Value)) → Bool
  | [], [] => true
  | x :: xs, y :: ys =>
      (deepEqualMapAB x y && keysIncluded y x) && deepEqualMapList xs ys
  | _, _ => false

/-- Every binding of `a` is matched by a deeply equal binding in `b`. -/
def deepEqualMapAB : List (String × Value) → List (String × Value) → Bool
  | [], _ => true
  | (k, v) :: rest, b => deepEqualFind v k b && deepEqualMapAB rest b

/-- Looks up key `k` in `b` and deeply compares its value with `v`. -/
def deepEqualFind : Value → String → List (String × Value) → Bool
  | _, _, [] => false
  | v, k, (k', w) :: rest =>
      if k = k' then deepEqual v w else deepEqualFind v k rest

end

/-- Model of Go `compareGT`: strict greater-than, defined only for two
`float64`, two `int` or two `string` operands; `false` otherwise. -/
def compareGT : Value → Value → Bool
  | .vfloat a, .vfloat b => decide (b < a)
  | .vint a, .vint b => decide (b < a)
  | .vstr a, .vstr b => decide (b < a)
  | _, _ => false

/-- Model of Go `compareGTE`: `compareGT` or `reflect.DeepEqual`. -/
def compareGTE (a b : Value) : Bool :=
  compareGT a b || deepEqual a b

/-- Model of Go `compareLT`: strict less-than, same type discipline. -/
def compareLT : Value → Value → Bool
  | .vfloat a, .vfloat b => decide (a < b)
  | .vint a, .vint b => decide (a < b)
  | .vstr a, .vstr b => decide (a < b)
  | _, _ => false

/-- Model of Go `compareLTE`: `compareLT` or `reflect.DeepEqual`. -/
def compareLTE (a b : Value) : Bool :=
  compareLT a b || deepEqual a b

/-- Model of Go `containsValue`: reflection-based membership test.  Both
slice kinds (`[]interface{}` and `[]M`) count as slices; anything else
yields `false`. -/
def containsValue (arr val : Value) : Bool :=
  match arr with
  | .varr xs => xs.any (fun x => deepEqual x val)
  | .varrM ms => ms.any (fun m => deepEqual (.vmapM m) val)
  | _ => false

/-- Inner operator loop of `matchesFilter`: iterates the operator map
bound to a plain field key and checks every recognized operator against
the document's current value; unrecognized operators fall through the
switch and are skipped. -/
def evalOps (docValue : Value) : List (String × Value) → Bool
  | [] => true
  | (op, opValue) :: rest =>
    match op with
    | "$eq" => deepEqual docValue opValue && evalOps docValue rest
    | "$ne" => !deepEqual docValue opValue && evalOps docValue rest
    | "$gt" => compareGT docValue opValue && evalOps docValue rest
    | "$gte" => compareGTE docValue opValue && evalOps docValue rest
    | "$lt" => compareLT docValue opValue && evalOps docValue rest
    | "$lte" => compareLTE docValue opValue && evalOps docValue rest
    | "$in" => containsValue opValue docValue && evalOps docValue rest
    | "$nin" => !containsValue opValue docValue && evalOps docValue rest
    | _ => evalOps docValue rest

mutual

/-- Model of Go `matchesFilter`.  `none` models the runtime panic raised
by `key[0]` when a filter key is the empty string; `some b` is the
boolean the Go function returns. -/
def matchesFilter (doc : Document) (filter : M) : Option Bool :=
  match filter with
  | [] => some true
  | (key, value) :: rest =>
    if key = "$and" then
      match value with
      | .varrM fs =>
        match matchAll doc fs with
        | none => none
        | some false => some false
        | some true => matchesFilter doc rest
      | _ => matchesFilter doc rest
    else if key = "$or" then
      match value with
      | .varrM fs =>
        match matchAny doc fs with
        | none => none
        | some false => some false
        | some true => matchesFilter doc rest
      | _ => matchesFilter doc rest
    else if key = "" then none
    else if key.front = '$' then matchesFilter doc rest
    else
      let docValue := mget doc key
      match value with
      | .vmapM opMap =>
        if evalOps docValue opMap then matchesFilter doc rest else some false
      | _ =>
        if deepEqual docValue value then matchesFilter doc rest
        else some false
termination_by sizeOf filter

/-- Conjunction loop of the `$and` combinator: fails on the first
non-match, propagating a panic from a nested filter. -/
def matchAll (doc : Document) : List (List (String × Value)) → Option Bool
  | [] => some true
  | f :: fs =>
    match matchesFilter doc f with
    | none => none
    | some false => some false
    | some true => matchAll doc fs
termination_by fs => sizeOf fs

/-- Disjunction loop of the `$or` combinator: succeeds on the first
match, propagating a panic from a nested filter. -/
def matchAny (doc : Document) : List (List (String × Value)) → Option Bool
  | [] => some false
  | f :: fs =>
    match matchesFilter doc f with
    | none => none
    | some true => some true
    | some false => matchAny doc fs
termination_by fs => sizeOf fs

end

/-- Field-assignment pass of the `$set` operator: `result[k] = v` for each
entry of the operator block, in iteration order. -/
def setAll (result : Document) (m : List (String × Value)) : Document :=
  m.foldl (fun r p => mset r p.1 p.2) result

/-- Field-removal pass of the `$unset` operator: `delete(result, k)` for
each entry of the operator block. -/
def delAll (result : Document) (m : List (String × Value)) : Document :=
  m.foldl (fun r p => mdel r p.1) result

/-- Increment pass of the `$inc` operator: an entry is acted on only when
its increment value is a `float64`; it then adds to a `float64` current
value and overwrites any other current value with the increment. -/
def incAll (result : Document) (m : List (String × Value)) : Document :=
  m.foldl (fun r p =>
    match p.2 with
    | .vfloat q =>
      match mget r p.1 with
      | .vfloat c => mset r p.1 (.vfloat (c + q))
      | _ => mset r p.1 (.vfloat q)
    | _ => r) result

/-- Append pass of the `$push` operator: appends when the current value is
a `[]interface{}`, otherwise replaces it with a one-element slice. -/
def pushAll (result : Document) (m : List (String × Value)) : Document :=
  m.foldl (fun r p =>
    match mget r p.1 with
    | .varr xs => mset r p.1 (.varr (xs ++ [p.2]))
    | _ => mset r p.1 (.varr [p.2])) result

/-- Replacement mode of `applyUpdate`: a fresh document holding the
original document's `_id` map read, then every key/value of the update
copied in verbatim. -/
def replaceDoc (doc : Document) (update : M) : Document :=
  setAll [("_id", mget doc "_id")] update

/-- Whether an update key triggers replacement mode: any non-empty key
whose first byte is not the operator sigil (an empty key panics instead). -/
def isReplKey (k : String) : Bool :=
  k != "" && k.front != '$'

/-- Whether some top-level update key triggers replacement mode. -/
def hasReplKey (update : M) : Bool :=
  update.any (fun p => isReplKey p.1)

/-- Operator loop of `applyUpdate`: iterates the update's entries over the
accumulated `result`, switching on the operator name; a non-operator key
returns the replacement document built from the original `doc` and the
whole `update`; an empty key panics (`op[0]`), modelled as `none`. -/
def applyUpdateLoop (doc : Document) (update : M) :
    Document → List (String × Value) → Option Document
  | result, [] => some result
  | result, (op, fields) :: rest =>
    if op = "$set" then
      match fields with
      | .vmapM m => applyUpdateLoop doc update (setAll result m) rest
      | _ => applyUpdateLoop doc update result rest
    else if op = "$unset" then
      match fields with
      | .vmapM m => applyUpdateLoop doc update (delAll result m) rest
      | _ => applyUpdateLoop doc update result rest
    else if op = "$inc" then
      match fields with
      | .vmapM m => applyUpdateLoop doc update (incAll result m) rest
      | _ => applyUpdateLoop doc update result rest
    else if op = "$push" then
      match fields with
      | .vmapM m => applyUpdateLoop doc update (pushAll result m) rest
      | _ => applyUpdateLoop doc update result rest
    else if op = "" then none
    else if op.front = '$' then applyUpdateLoop doc update result rest
    else some (replaceDoc doc update)

/-- Model of Go `applyUpdate`: starts from a copy of the document and runs
the operator loop over the update's entries.  `none` models the runtime
panic on an empty update key. -/
def applyUpdate (doc : Document) (update : M) : Option Document :=
  applyUpdateLoop doc update doc update

/-- Model of the Go `Cursor`: an already-fetched result sequence plus the
consumption index and the `skip`/`limit` configuration (Go `int`). -/
structure Cursor where
  documents : List Document
  index : Int
  limit : Int
  skip : Int
  deriving Repr

/-- Model of Go `NewCursor`: limit `-1` (unlimited) and skip `0`. -/
def NewCursor (docs : List Document) : Cursor :=
  ⟨docs, 0, -1, 0⟩

/-- Model of `Cursor.Limit`: stores the new limit. -/
def Cursor.Limit (c : Cursor) (n : Int) : Cursor :=
  { c with limit := n }

/-- Model of `Cursor.Skip`: stores the new skip. -/
def Cursor.Skip (c : Cursor) (n : Int) : Cursor :=
  { c with skip := n }

/-- Model of `Cursor.All`: recomputes the window from the full underlying
sequence using the current skip/limit; the Go error result is always nil
and is omitted. -/
def Cursor.All (c : Cursor) : List Document :=
  let docs := c.documents
  let docs1 :=
    if 0 < c.skip ∧ c.skip < (docs.length : Int) then docs.drop c.skip.toNat
    else if (docs.length : Int) ≤ c.skip then ([] : List Document)
    else docs
  if 0 ≤ c.limit ∧ c.limit < (docs1.length : Int) then docs1.take c.limit.toNat
  else docs1

/-- Model of `Document.ID`: the `_id` field when it is a string, `""`
otherwise. -/
def DocID (d : Document) : String :=
  match mfind? d "_id" with
  | some (.vstr s) => s
  | _ => ""

/-- Outcome of the store's point-lookup as seen by the Go wrapper:
`keradb_find_by_id` returned nil (not found), the returned JSON failed to
decode, or a decoded document. -/
inductive FindByIdRes : Type where
  | notFound : FindByIdRes
  | decodeErr (e : String) : FindByIdRes
  | found (d : Document) : FindByIdRes
  deriving Repr

/-- The FFI boundary to the external storage engine, as consumed by the
collection facade.  State `σ` is the store's opaque state threaded
through the mutating calls; JSON marshalling of documents built by this
SDK is total and is elided.
Modelled from the spec: the store-boundary operations of §6
(`put`/`getByIdentity`/`putAt`/`deleteByIdentity`/`scanAll`) are not part
of this repository (they live in the external Rust engine), so their
behavior is left opaque: any record of this type is a possible store. -/
structure FFI (σ : Type) where
  /-- `keradb_insert`: an assigned identity, or nil plus `last_error`. -/
  insert : Document → σ → Except String String × σ
  /-- `keradb_find_by_id` followed by JSON decoding. -/
  findById : String → σ → FindByIdRes
  /-- `keradb_update`: acknowledgement, or nil plus `last_error`. -/
  update : String → Document → σ → Except String Unit × σ
  /-- `keradb_delete`: the deleted count. -/
  delete : String → σ → Int × σ
  /-- `keradb_find_all` followed by JSON decoding; `none` covers both a
  nil reply and a decode failure (the Go code maps both to an empty
  cursor). -/
  findAll : σ → Option (List Document)

/-- Model of Go `SingleResult`: an optional document and an optional
error, exactly the two fields the Go struct carries. -/
structure SingleResult where
  doc : Option Document
  err : Option String
  deriving Repr

/-- Client-side filtering pass of `Collection.Find`: keeps the documents
accepted by `matchesFilter`, propagating a panic as `none`. -/
def filterDocs (docs : List Document) (filter : M) : Option (List Document) :=
  match docs with
  | [] => some []
  | d :: rest =>
    match matchesFilter d filter with
    | none => none
    | some b =>
      match filterDocs rest filter with
      | none => none
      | some fd => some (if b then d :: fd else fd)

/-- Model of `Collection.Find`: fetches the store's full enumeration and
filters it client-side when the filter is non-empty; a nil or undecodable
reply yields an empty cursor.  `none` models a panic escaping from
`matchesFilter`. -/
def Find {σ : Type} (ffi : FFI σ) (filter : M) (st : σ) : Option Cursor :=
  match ffi.findAll st with
  | none => some (NewCursor [])
  | some docs =>
    if 0 < filter.length then
      match filterDocs docs filter with
      | none => none
      | some fd => some (NewCursor fd)
    else some (NewCursor docs)

/-- General branch of `Collection.FindOne`: a one-element window over the
filtered enumeration; an empty window is a nil document with nil error. -/
def FindOneGeneral {σ : Type} (ffi : FFI σ) (filter : M) (st : σ) :
    Option SingleResult :=
  match Find ffi filter st with
  | none => none
  | some cursor =>
    match (cursor.Limit 1).All with
    | [] => some ⟨none, none⟩
    | d :: _ => some ⟨some d, none⟩

/-- Model of `Collection.FindOne`: the `_id` fast path fires exactly when
the filter is a single key `_id` bound to a string; every other filter
shape takes the general enumeration branch. -/
def FindOne {σ : Type} (ffi : FFI σ) (filter : M) (st : σ) :
    Option SingleResult :=
  match mfind? filter "_id" with
  | some (.vstr id) =>
    if filter.length = 1 then
      match ffi.findById id st with
      | .notFound => some ⟨none, none⟩
      | .decodeErr e => some ⟨none, some e⟩
      | .found d => some ⟨some d, none⟩
    else FindOneGeneral ffi filter st
  | _ => FindOneGeneral ffi filter st

/-- Model of `Collection.InsertOne`: marshals the document and calls the
store's insert, wrapping a nil reply's diagnostic. -/
def InsertOne {σ : Type} (ffi : FFI σ) (doc : Document) (st : σ) :
    Except String String × σ :=
  match ffi.insert doc st with
  | (.error e, st') => (.error ("insert failed: " ++ e), st')
  | (.ok id, st') => (.ok id, st')

/-- Model of `Collection.InsertMany`: sequential `InsertOne` calls,
returning the collected identities or the first failure's error. -/
def InsertMany {σ : Type} (ffi : FFI σ) :
    List Document → σ → Except String (List String) × σ
  | [], st => (.ok [], st)
  | d :: rest, st =>
    match InsertOne ffi d st with
    | (.error e, st') => (.error e, st')
    | (.ok id, st') =>
      match InsertMany ffi rest st' with
      | (.ok ids, st'') => (.ok (id :: ids), st'')
      | (.error e, st'') => (.error e, st'')

/-- Result of an update operation (Go `UpdateResult`). -/
structure UpdateResult where
  matched : Int
  modified : Int
  deriving Repr

/-- Result of a delete operation (Go `DeleteResult`). -/
structure DeleteResult where
  deleted : Int
  deriving Repr

/-- Model of `Collection.UpdateOne`: locate via `FindOne`, transform via
`applyUpdate`, strip `_id`, write back through the store; zero matches
are a successful zero-count result.  `none` models a panic escaping from
the evaluator or the applier. -/
def UpdateOne {σ : Type} (ffi : FFI σ) (filter update : M) (st : σ) :
    Option (Except String UpdateResult × σ) :=
  match FindOne ffi filter st with
  | none => none
  | some r =>
    match r.err with
    | some e => some (.error e, st)
    | none =>
      match r.doc with
      | none => some (.ok ⟨0, 0⟩, st)
      | some d =>
        match applyUpdate d update with
        | none => none
        | some updated =>
          match ffi.update (DocID d) (mdel updated "_id") st with
          | (.error e, st') => some (.error ("update failed: " ++ e), st')
          | (.ok _, st') => some (.ok ⟨1, 1⟩, st')

/-- Per-document loop of `Collection.UpdateMany`: one `UpdateOne` by
identity per matched document, stopping at the first error and counting
the completed updates. -/
def umLoop {σ : Type} (ffi : FFI σ) (update : M) :
    List Document → σ → Int → Option (Except String Int × σ)
  | [], st, modified => some (.ok modified, st)
  | d :: rest, st, modified =>
    match UpdateOne ffi [("_id", .vstr (DocID d))] update st with
    | none => none
    | some (.error e, st') => some (.error e, st')
    | some (.ok _, st') => umLoop ffi update rest st' (modified + 1)

/-- Model of `Collection.UpdateMany`: materializes the matching set, then
runs the per-document loop; matched count is the set's size. -/
def UpdateMany {σ : Type} (ffi : FFI σ) (filter update : M) (st : σ) :
    Option (Except String UpdateResult × σ) :=
  match Find ffi filter st with
  | none => none
  | some cursor =>
    let docs := cursor.All
    match umLoop ffi update docs st 0 with
    | none => none
    | some (.error e, st') => some (.error e, st')
    | some (.ok m, st') => some (.ok ⟨docs.length, m⟩, st')

/-- Model of `Collection.DeleteOne`: locate via `FindOne`, then the
store's delete by identity; zero matches are a successful zero count. -/
def DeleteOne {σ : Type} (ffi : FFI σ) (filter : M) (st : σ) :
    Option (Except String DeleteResult × σ) :=
  match FindOne ffi filter st with
  | none => none
  | some r =>
    match r.err with
    | some e => some (.error e, st)
    | none =>
      match r.doc with
      | none => some (.ok ⟨0⟩, st)
      | some d =>
        let res := ffi.delete (DocID d) st
        some (.ok ⟨res.1⟩, res.2)

/-- Per-document loop of `Collection.DeleteMany`: one `DeleteOne` by
identity per matched document, stopping at the first error and summing
the deleted counts. -/
def dmLoop {σ : Type} (ffi : FFI σ) :
    List Document → σ → Int → Option (Except String Int × σ)
  | [], st, acc => some (.ok acc, st)
  | d :: rest, st, acc =>
    match DeleteOne ffi [("_id", .vstr (DocID d))] st with
    | none => none
    | some (.error e, st') => some (.error e, st')
    | some (.ok res, st') => dmLoop ffi rest st' (acc + res.deleted)

/-- Model of `Collection.DeleteMany`: materializes the matching set, then
runs the per-document loop. -/
def DeleteMany {σ : Type} (ffi : FFI σ) (filter : M) (st : σ) :
    Option (Except String DeleteResult × σ) :=
  match Find ffi filter st with
  | none => none
  | some cursor =>
    match dmLoop ffi cursor.All st 0 with
    | none => none
    | some (.error e, st') => some (.error e, st')
    | some (.ok n, st') => some (.ok ⟨n⟩, st')

/-- Identity test of the store's point-lookup.
Modelled from the spec: §6's `getByIdentity` selects the document whose
string identity field equals the requested identity. -/
def idMatches (id : String) (d : Document) : Bool :=
  match mget d "_id" with
  | .vstr s => s == id
  | _ => false

/-- A concrete store for the refinement claim, whose state is the
sequence of documents the store enumerates.
Modelled from the spec: the storage engine behind the FFI boundary is not
part of this repository, so §6's contract is taken literally —
`scanAll` returns the full unindexed enumeration, `getByIdentity`
returns the (first) enumerated document satisfying `idMatches`, `put`
appends and echoes the document's identity, `putAt` replaces by
identity, `deleteByIdentity` removes by identity and reports the
count. -/
def modelStore : FFI (List Document) where
  insert d st := (.ok (DocID d), st ++ [d])
  findById id st :=
    match st.find? (idMatches id) with
    | some d => .found d
    | none => .notFound
  update id d st :=
    (.ok (), st.map (fun d' => if DocID d' == id then d else d'))
  delete id st :=
    ((st.filter (fun d => DocID d == id)).length,
      st.filter (fun d => DocID d != id))
  findAll st := some st

/-- Last binding of `k` in an update expression; for a well-formed Go map
(no duplicate keys) it coincides with `mfind?`, and it is what a
left-to-right sequence of `m[k] = v` writes leaves in the map. -/
def findLastVal : List (String × Value) → String → Option Value
  | [], _ => none
  | (k0, v0) :: rest, k =>
    match findLastVal rest k with
    | some v => some v
    | none => if k = k0 then some v0 else none

/-- Whether one update entry's operator block avoids naming field `k`:
relevant only for a `$set`/`$unset`/`$inc`/`$push` entry whose operand is
an `M` map. -/
def blockEntryAvoids (k : String) (p : String × Value) : Bool :=
  match p.2 with
  | .vmapM m =>
    if p.1 == "$set" || p.1 == "$unset" || p.1 == "$inc" || p.1 == "$push"
    then m.all (fun q => q.1 != k)
    else true
  | _ => true

/-- Whether none of the four operator blocks of an update names field
`k`. -/
def blocksAvoid (update : M) (k : String) : Bool :=
  update.all (blockEntryAvoids k)

/-- Equality of two documents as Go maps: the same bindings, regardless
of the association lists' entry order. -/
def docEquiv (a b : Document) : Prop :=
  ∀ k, mfind? a k = mfind? b k

/-- Whether two operands are of one of the three type pairings for which
the strict ordering comparisons are defined: two `float64`, two `int`,
or two `string`. -/
def ordKindPair : Value → Value → Bool
  | .vfloat _, .vfloat _ => true
  | .vint _, .vint _ => true
  | .vstr _, .vstr _ => true
  | _, _ => false

/-- Whether a value's dynamic type is `[]M`, the only operand type the
`$and`/`$or` combinators accept. -/
def isArrM : Value → Bool
  | .varrM _ => true
  | _ => false

/-! ### Lemmas about the Go-map operations -/

theorem mfind?_nil (k : String) : mfind? [] k = none := rfl

theorem mfind?_cons (p : String × Value) (m : List (String × Value))
    (k : String) :
    mfind? (p :: m) k = if p.1 = k then some p.2 else mfind? m k := by
  by_cases h : p.1 = k
  · simp [mfind?, List.find?_cons_of_pos, h]
  · simp only [mfind?, if_neg h]
    rw [List.find?_cons_of_neg]
    simp [h]

theorem msetEntry_of_eq (k : String) (v : Value) (p : String × Value)
    (h : p.1 = k) : msetEntry k v p = (k, v) := by
  simp [msetEntry, h]

theorem msetEntry_of_ne (k : String) (v : Value) (p : String × Value)
    (h : ¬ p.1 = k) : msetEntry k v p = p := by
  simp [msetEntry, h]

theorem mfind?_map_set_ne (m : List (String × Value)) (k : String) (v : Value)
    (k' : String) (h : ¬ k' = k) :
    mfind? (m.map (msetEntry k v)) k' = mfind? m k' := by
  induction m with
  | nil => rfl
  | cons a m ih =>
    rw [List.map_cons]
    by_cases ha : a.1 = k
    · have hkk' : ¬ ((k, v).1 = k') := fun hc => h hc.symm
      have hak' : ¬ a.1 = k' := fun hc => h (hc.symm.trans ha)
      rw [msetEntry_of_eq k v a ha, mfind?_cons, if_neg hkk',
        mfind?_cons, if_neg hak', ih]
    · rw [msetEntry_of_ne k v a ha, mfind?_cons, mfind?_cons, ih]

theorem mfind?_map_set_self (m : List (String × Value)) (k : String)
    (v : Value) (h : mhasB m k = true) :
    mfind? (m.map (msetEntry k v)) k = some v := by
  induction m with
  | nil => simp [mhasB] at h
  | cons a m ih =>
    rw [List.map_cons]
    by_cases ha : a.1 = k
    · rw [msetEntry_of_eq k v a ha, mfind?_cons, if_pos rfl]
    · have hm : mhasB m k = true := by
        simpa [mhasB, List.any_cons, ha] using h
      rw [msetEntry_of_ne k v a ha, mfind?_cons, if_neg ha, ih hm]

theorem mfind?_append_single (m : List (String × Value)) (k : String)
    (v : Value) (k' : String) :
    mfind? (m ++ [(k, v)]) k' =
      match mfind? m k' with
      | some w => some w
      | none => if k' = k then some v else none := by
  induction m with
  | nil =>
    by_cases hk : k = k'
    · simp [mfind?_cons, mfind?_nil, hk]
    · have hk2 : ¬ k' = k := fun hc => hk hc.symm
      simp [mfind?_cons, mfind?_nil, hk, hk2]
  | cons a m ih =>
    by_cases hak' : a.1 = k'
    · simp [List.cons_append, mfind?_cons, hak']
    · simp [List.cons_append, mfind?_cons, hak', ih]

theorem mfind?_eq_none_of_not_has (m : List (String × Value)) (k : String)
    (h : mhasB m k = false) : mfind? m k = none := by
  induction m with
  | nil => rfl
  | cons a m ih =>
    have ha : ¬ a.1 = k := by
      intro hc
      simp [mhasB, List.any_cons, hc] at h
    have hm : mhasB m k = false := by
      simpa [mhasB, List.any_cons, ha] using h
    simp [mfind?_cons, ha, ih hm]

theorem mfind?_mset (m : List (String × Value)) (k : String) (v : Value)
    (k' : String) :
    mfind? (mset m k v) k' = if k' = k then some v else mfind? m k' := by
  unfold mset
  by_cases hhas : mhasB m k
  · simp only [hhas, if_true]
    by_cases hk' : k' = k
    · rw [if_pos hk', hk']
      exact mfind?_map_set_self m k v hhas
    · rw [if_neg hk']
      exact mfind?_map_set_ne m k v k' hk'
  · simp only [Bool.not_eq_true] at hhas
    simp only [hhas, Bool.false_eq_true, if_false]
    rw [mfind?_append_single]
    by_cases hk' : k' = k
    · rw [hk', mfind?_eq_none_of_not_has m k hhas]
    · cases hm : mfind? m k' <;> simp [hk']

theorem mfind?_mdel (m : List (String × Value)) (k k' : String) :
    mfind? (mdel m k) k' = if k' = k then none else mfind? m k' := by
  induction m with
  | nil => simp [mdel, mfind?_nil]
  | cons a m ih =>
    rw [mdel] at ih ⊢
    by_cases ha : a.1 = k
    · rw [List.filter_cons_of_neg (by simp [ha]), ih]
      by_cases hk' : k' = k
      · simp [hk']
      · have hak' : ¬ a.1 = k' := fun hc => hk' (hc.symm.trans ha)
        simp [hk', mfind?_cons, hak']
    · rw [List.filter_cons_of_pos (by simp [ha])]
      by_cases hak' : a.1 = k'
      · have hk' : ¬ k' = k := fun hc => ha (hak'.trans hc)
        simp [mfind?_cons, hak', hk']
      · simp [mfind?_cons, hak', ih]

theorem mget_mset (m : List (String × Value)) (k : String) (v : Value)
    (k' : String) :
    mget (mset m k v) k' = if k' = k then v else mget m k' := by
  rw [mget, mfind?_mset]
  by_cases hk' : k' = k <;> simp [hk', mget]

/-! ### Lemmas about the operator passes of the update applier -/

theorem setAll_nil (r : Document) : setAll r [] = r := rfl

theorem setAll_cons (r : Document) (p : String × Value)
    (m : List (String × Value)) :
    setAll r (p :: m) = setAll (mset r p.1 p.2) m := rfl

theorem mfind?_setAll (m : List (String × Value)) (r : Document)
    (k : String) :
    mfind? (setAll r m) k =
      match findLastVal m k with
      | some v => some v
      | none => mfind? r k := by
  induction m generalizing r with
  | nil => rfl
  | cons p m ih =>
    rw [setAll_cons, ih, findLastVal]
    cases findLastVal m k with
    | some v => rfl
    | none =>
      rw [mfind?_mset]
      by_cases hk : k = p.1 <;> simp [hk]

theorem findLastVal_eq_none (m : List (String × Value)) (k : String)
    (h : ∀ p ∈ m, ¬ p.1 = k) : findLastVal m k = none := by
  induction m with
  | nil => rfl
  | cons p m ih =>
    have hk : ¬ k = p.1 := fun hc => h p (by simp) hc.symm
    rw [findLastVal, ih (fun q hq => h q (by simp [hq]))]
    simp [hk]

theorem mfind?_setAll_avoid (m : List (String × Value)) (r : Document)
    (k : String) (h : ∀ p ∈ m, ¬ p.1 = k) :
    mfind? (setAll r m) k = mfind? r k := by
  rw [mfind?_setAll, findLastVal_eq_none m k h]

theorem mfind?_delAll_avoid (m : List (String × Value)) (r : Document)
    (k : String) (h : ∀ p ∈ m, ¬ p.1 = k) :
    mfind? (delAll r m) k = mfind? r k := by
  induction m generalizing r with
  | nil => rfl
  | cons p m ih =>
    have hp : ¬ p.1 = k := h p (by simp)
    have hk : ¬ k = p.1 := fun hc => hp hc.symm
    show mfind? (delAll (mdel r p.1) m) k = mfind? r k
    rw [ih (mdel r p.1) (fun q hq => h q (by simp [hq])), mfind?_mdel,
      if_neg hk]

theorem mfind?_incAll_avoid (m : List (String × Value)) (r : Document)
    (k : String) (h : ∀ p ∈ m, ¬ p.1 = k) :
    mfind? (incAll r m) k = mfind? r k := by
  induction m generalizing r with
  | nil => rfl
  | cons p m ih =>
    have hp : ¬ p.1 = k := h p (by simp)
    have hk : ¬ k = p.1 := fun hc => hp hc.symm
    have hrest : ∀ q ∈ m, ¬ q.1 = k := fun q hq => h q (by simp [hq])
    show mfind? (incAll _ m) k = mfind? r k
    cases hv : p.2 with
    | vfloat q =>
      cases hc : mget r p.1 <;>
        simp only [hv, hc] <;>
        rw [ih _ hrest, mfind?_mset, if_neg hk]
    | vnull => simp only [hv]; exact ih r hrest
    | vbool b => simp only [hv]; exact ih r hrest
    | vint n => simp only [hv]; exact ih r hrest
    | vstr s => simp only [hv]; exact ih r hrest
    | varr xs => simp only [hv]; exact ih r hrest
    | vmapM mm => simp only [hv]; exact ih r hrest
    | vmapU mm => simp only [hv]; exact ih r hrest
    | varrM xs => simp only [hv]; exact ih r hrest

theorem mfind?_pushAll_avoid (m : List (String × Value)) (r : Document)
    (k : String) (h : ∀ p ∈ m, ¬ p.1 = k) :
    mfind? (pushAll r m) k = mfind? r k := by
  induction m generalizing r with
  | nil => rfl
  | cons p m ih =>
    have hp : ¬ p.1 = k := h p (by simp)
    have hk : ¬ k = p.1 := fun hc => hp hc.symm
    have hrest : ∀ q ∈ m, ¬ q.1 = k := fun q hq => h q (by simp [hq])
    show mfind? (pushAll _ m) k = mfind? r k
    cases hc : mget r p.1 <;>
      simp only [hc] <;>
      rw [ih _ hrest, mfind?_mset, if_neg hk]

theorem mget_replaceDoc_id (doc : Document) (update : M)
    (h : ∀ p ∈ update, ¬ p.1 = "_id") :
    mget (replaceDoc doc update) "_id" = mget doc "_id" := by
  rw [replaceDoc, mget, mfind?_setAll_avoid update _ "_id" h, mfind?_cons]
  simp

/-! ### Identity preservation through the operator loop -/

theorem mget_congr_of_mfind? {a b : Document} {k : String}
    (h : mfind? a k = mfind? b k) : mget a k = mget b k := by
  rw [mget, mget, h]

theorem all_keys_ne_of_block (m : List (String × Value)) (k : String)
    (h : m.all (fun q => q.1 != k) = true) : ∀ q ∈ m, ¬ q.1 = k := by
  intro q hq
  have := List.all_eq_true.mp h q hq
  simpa using this

theorem applyUpdateLoop_preserves_id (doc : Document) (update : M)
    (hrepl : ∀ p ∈ update, ¬ p.1 = "_id") :
    ∀ (entries : List (String × Value)) (result R : Document),
      blocksAvoid entries "_id" = true →
      mget result "_id" = mget doc "_id" →
      applyUpdateLoop doc update result entries = some R →
      mget R "_id" = mget doc "_id" := by
  intro entries
  induction entries with
  | nil =>
    intro result R _ hres hloop
    rw [applyUpdateLoop] at hloop
    cases hloop
    exact hres
  | cons p rest ih =>
    obtain ⟨op, fields⟩ := p
    intro result R hblocks hres hloop
    have hblocks2 : blockEntryAvoids "_id" (op, fields) = true ∧
        blocksAvoid rest "_id" = true := by
      simpa [blocksAvoid, List.all_cons, Bool.and_eq_true] using hblocks
    obtain ⟨hhead, htail⟩ := hblocks2
    cases fields
    case vmapM m =>
      rw [applyUpdateLoop.eq_2] at hloop
      have hmOf : (m.all (fun q => q.1 != "_id") = true) →
          ∀ q ∈ m, ¬ q.1 = "_id" := all_keys_ne_of_block m "_id"
      split at hloop
      next h1 =>
        have hm := hmOf (by simpa [blockEntryAvoids, h1] using hhead)
        have hres2 : mget (setAll result m) "_id" = mget doc "_id" := by
          rw [mget_congr_of_mfind? (mfind?_setAll_avoid m result "_id" hm)]
          exact hres
        exact ih (setAll result m) R htail hres2 hloop
      next h1 =>
        split at hloop
        next h2 =>
          have hm := hmOf (by simpa [blockEntryAvoids, h2] using hhead)
          have hres2 : mget (delAll result m) "_id" = mget doc "_id" := by
            rw [mget_congr_of_mfind? (mfind?_delAll_avoid m result "_id" hm)]
            exact hres
          exact ih (delAll result m) R htail hres2 hloop
        next h2 =>
          split at hloop
          next h3 =>
            have hm := hmOf (by simpa [blockEntryAvoids, h3] using hhead)
            have hres2 : mget (incAll result m) "_id" = mget doc "_id" := by
              rw [mget_congr_of_mfind? (mfind?_incAll_avoid m result "_id" hm)]
              exact hres
            exact ih (incAll result m) R htail hres2 hloop
          next h3 =>
            split at hloop
            next h4 =>
              have hm := hmOf (by simpa [blockEntryAvoids, h4] using hhead)
              have hres2 : mget (pushAll result m) "_id" = mget doc "_id" := by
                rw [mget_congr_of_mfind? (mfind?_pushAll_avoid m result "_id" hm)]
                exact hres
              exact ih (pushAll result m) R htail hres2 hloop
            next h4 =>
              split at hloop
              next h5 => cases hloop
              next h5 =>
                split at hloop
                next h6 => exact ih result R htail hres hloop
                next h6 =>
                  cases hloop
                  exact mget_replaceDoc_id doc update hrepl
    all_goals {
      rw [applyUpdateLoop.eq_3 _ _ _ _ _ _
        (fun mm hh => Value.noConfusion hh)] at hloop
      split at hloop
      · exact ih result R htail hres hloop
      · split at hloop
        · exact ih result R htail hres hloop
        · split at hloop
          · exact ih result R htail hres hloop
          · split at hloop
            · exact ih result R htail hres hloop
            · split at hloop
              · cases hloop
              · split at hloop
                · exact ih result R htail hres hloop
                · cases hloop
                  exact mget_replaceDoc_id doc update hrepl
    }

theorem mhasB_eq_false_of_avoid (m : List (String × Value)) (k : String)
    (h : ∀ p ∈ m, ¬ p.1 = k) : mhasB m k = false := by
  rw [mhasB, List.any_eq_false]
  intro p hp
  simpa using h p hp

theorem findLastVal_eq_mfind?_of_nodup (m : List (String × Value))
    (k : String) (h : (m.map Prod.fst).Nodup) :
    findLastVal m k = mfind? m k := by
  induction m with
  | nil => rfl
  | cons p rest ih =>
    rw [List.map_cons, List.nodup_cons] at h
    obtain ⟨h1, h2⟩ := h
    rw [findLastVal, ih h2, mfind?_cons]
    by_cases hk : p.1 = k
    · have hnone : mfind? rest k = none := by
        apply mfind?_eq_none_of_not_has
        apply mhasB_eq_false_of_avoid
        intro q hq hc
        exact h1 (by rw [hk, ← hc]; exact List.mem_map_of_mem Prod.fst hq)
      rw [hnone, if_pos hk]
      simp [hk]
    · have hk2 : ¬ k = p.1 := fun hc => hk hc.symm
      rw [if_neg hk]
      cases hrest : mfind? rest k <;> simp [hk2]

theorem mfind?_replaceDoc (doc : Document) (update : M) (k : String) :
    mfind? (replaceDoc doc update) k =
      match findLastVal update k with
      | some v => some v
      | none => if k = "_id" then some (mget doc "_id") else none := by
  rw [replaceDoc, mfind?_setAll]
  cases findLastVal update k with
  | some v => rfl
  | none =>
    rw [mfind?_cons]
    by_cases hk : k = "_id"
    · simp [hk]
    · have hk2 : ¬ ("_id" : String) = k := fun hc => hk hc.symm
      simp [hk, hk2, mfind?_nil]

theorem applyUpdateLoop_repl (doc : Document) (update : M) :
    ∀ (entries : List (String × Value)) (result R : Document),
      hasReplKey entries = true →
      applyUpdateLoop doc update result entries = some R →
      R = replaceDoc doc update := by
  intro entries
  induction entries with
  | nil =>
    intro result R h
    simp [hasReplKey] at h
  | cons p rest ih =>
    obtain ⟨op, fields⟩ := p
    intro result R hk hloop
    cases fields
    case vmapM m =>
      rw [applyUpdateLoop.eq_2] at hloop
      split at hloop
      next h1 =>
        refine ih _ R ?_ hloop
        simpa [hasReplKey, List.any_cons, h1,
                    show isReplKey "$set" = false from rfl] using hk
      next h1 =>
        split at hloop
        next h2 =>
          refine ih _ R ?_ hloop
          simpa [hasReplKey, List.any_cons, h2,
                    show isReplKey "$unset" = false from rfl] using hk
        next h2 =>
          split at hloop
          next h3 =>
            refine ih _ R ?_ hloop
            simpa [hasReplKey, List.any_cons, h3,
                    show isReplKey "$inc" = false from rfl] using hk
          next h3 =>
            split at hloop
            next h4 =>
              refine ih _ R ?_ hloop
              simpa [hasReplKey, List.any_cons, h4,
                    show isReplKey "$push" = false from rfl] using hk
            next h4 =>
              split at hloop
              next h5 => cases hloop
              next h5 =>
                split at hloop
                next h6 =>
                  refine ih _ R ?_ hloop
                  simpa [hasReplKey, List.any_cons, isReplKey, h6] using hk
                next h6 =>
                  cases hloop
                  rfl
    all_goals {
      rw [applyUpdateLoop.eq_3 _ _ _ _ _ _
        (fun mm hh => Value.noConfusion hh)] at hloop
      split at hloop
      next h1 =>
        refine ih _ R ?_ hloop
        simpa [hasReplKey, List.any_cons, h1,
                    show isReplKey "$set" = false from rfl] using hk
      next h1 =>
        split at hloop
        next h2 =>
          refine ih _ R ?_ hloop
          simpa [hasReplKey, List.any_cons, h2,
                    show isReplKey "$unset" = false from rfl] using hk
        next h2 =>
          split at hloop
          next h3 =>
            refine ih _ R ?_ hloop
            simpa [hasReplKey, List.any_cons, h3,
                    show isReplKey "$inc" = false from rfl] using hk
          next h3 =>
            split at hloop
            next h4 =>
              refine ih _ R ?_ hloop
              simpa [hasReplKey, List.any_cons, h4,
                    show isReplKey "$push" = false from rfl] using hk
            next h4 =>
              split at hloop
              next h5 => cases hloop
              next h5 =>
                split at hloop
                next h6 =>
                  refine ih _ R ?_ hloop
                  simpa [hasReplKey, List.any_cons, isReplKey, h6] using hk
                next h6 =>
                  cases hloop
                  rfl
    }

/-! ### Claim C1: identity preservation of the update applier -/

/-- C1 counterexample: the claim "applyUpdate(D, U) has the same value
for the identity field as D; in particular a `$set` block naming `_id`
does not alter the result's identity field" is false on the code: for
`D = {"_id": "a"}` and `U = {"$set": {"_id": "b"}}`, the result's `_id`
reads `"b"`, not D's value `"a"`. -/
theorem C1_counterexample_set_id_overwritten :
    ¬ ((applyUpdate [("_id", Value.vstr "a")]
          [("$set", Value.vmapM [("_id", Value.vstr "b")])]).map
        (fun r => mget r "_id") =
      some (mget [("_id", Value.vstr "a")] "_id")) := by
  intro h
  have hcomp : (applyUpdate [("_id", Value.vstr "a")]
        [("$set", Value.vmapM [("_id", Value.vstr "b")])]).map
      (fun r => mget r "_id") = some (Value.vstr "b") := rfl
  have hd : mget [("_id", Value.vstr "a")] "_id" = Value.vstr "a" := rfl
  rw [hcomp, hd] at h
  have hs : ("b" : String) = "a" := by
    injection h with h1
    injection h1
  exact absurd hs (by decide)

/-- C1 (amended): applyUpdate preserves the identity field whenever the
update never names `_id` — no top-level key is `_id` (so a replacement
update cannot overwrite it) and no `$set`/`$unset`/`$inc`/`$push`
operator block names `_id` — and the application completes without the
empty-key panic.  When the update does name `_id` (as in the
counterexample) the identity field can change; the facade's `UpdateOne`
separately strips `_id` before writing back. -/
theorem C1_applyUpdate_preserves_id (D : Document) (U : M) (R : Document)
    (h1 : U.all (fun p => p.1 != "_id") = true)
    (h2 : blocksAvoid U "_id" = true)
    (h3 : applyUpdate D U = some R) :
    mget R "_id" = mget D "_id" := by
  have hrepl : ∀ p ∈ U, ¬ p.1 = "_id" := all_keys_ne_of_block U "_id" h1
  exact applyUpdateLoop_preserves_id D U hrepl U D R h2 rfl h3

/-- C1 witness: the amended theorem applied to `D = {"_id": "a", "x": 0}`
and `U = {"$set": {"x": 1}}`. -/
theorem C1_witness :
    (([("$set", Value.vmapM [("x", Value.vint 1)])] : M).all
        (fun p => p.1 != "_id") = true) ∧
    blocksAvoid [("$set", Value.vmapM [("x", Value.vint 1)])] "_id" = true ∧
    applyUpdate [("_id", Value.vstr "a"), ("x", Value.vint 0)]
        [("$set", Value.vmapM [("x", Value.vint 1)])] =
      some [("_id", Value.vstr "a"), ("x", Value.vint 1)] ∧
    mget [("_id", Value.vstr "a"), ("x", Value.vint 1)] "_id" =
      mget [("_id", Value.vstr "a"), ("x", Value.vint 0)] "_id" :=
  ⟨rfl, rfl, rfl,
    C1_applyUpdate_preserves_id
      [("_id", Value.vstr "a"), ("x", Value.vint 0)]
      [("$set", Value.vmapM [("x", Value.vint 1)])]
      [("_id", Value.vstr "a"), ("x", Value.vint 1)] rfl rfl rfl⟩

/-! ### Claim C2: replacement-mode semantics -/

/-- C2 counterexample: the claim "for update
`{"$set": {"a": 1}, "b": 2}` the result equals `{"_id": D._id, "b": 2}`
with the `$set` sibling ignored entirely" is false on the code: the
replacement loop copies every key of the update verbatim, so the result
carries a literal `"$set"` field (the claimed result would read `nil`
there). -/
theorem C2_counterexample_operator_key_copied :
    (applyUpdate [("_id", Value.vstr "x")]
        [("$set", Value.vmapM [("a", Value.vint 1)]), ("b", Value.vint 2)]).map
      (fun r => mget r "$set") = some (Value.vmapM [("a", Value.vint 1)]) ∧
    mget [("_id", Value.vstr "x"), ("b", Value.vint 2)] "$set" =
      Value.vnull ∧
    Value.vmapM [("a", Value.vint 1)] ≠ Value.vnull :=
  ⟨rfl, rfl, fun h => Value.noConfusion h⟩

/-- C2 (amended): if some top-level update key is non-empty and does not
start with `'$'` and the application completes without the empty-key
panic, the result is a fresh document holding exactly the original
identity field plus *every* key/value pair of the update verbatim —
including operator-prefixed siblings such as `"$set"`, which become
literal fields rather than being ignored (an `_id` key in the update
overwrites the copied identity).  Stated for well-formed updates (no
duplicate keys, as in a Go map). -/
theorem C2_replacement_copies_update (D : Document) (U : M) (R : Document)
    (hrk : hasReplKey U = true)
    (hnd : (U.map Prod.fst).Nodup)
    (h : applyUpdate D U = some R) :
    ∀ k, mfind? R k =
      match mfind? U k with
      | some v => some v
      | none => if k = "_id" then some (mget D "_id") else none := by
  have hR : R = replaceDoc D U := applyUpdateLoop_repl D U U D R hrk h
  intro k
  rw [hR, mfind?_replaceDoc, findLastVal_eq_mfind?_of_nodup U k hnd]

/-- C2 witness: the amended theorem applied to `D = {"_id": "x"}` and
`U = {"$set": {"a": 1}, "b": 2}`. -/
theorem C2_witness :
    hasReplKey [("$set", Value.vmapM [("a", Value.vint 1)]),
        ("b", Value.vint 2)] = true ∧
    (([("$set", Value.vmapM [("a", Value.vint 1)]),
        ("b", Value.vint 2)] : M).map Prod.fst).Nodup ∧
    applyUpdate [("_id", Value.vstr "x")]
        [("$set", Value.vmapM [("a", Value.vint 1)]), ("b", Value.vint 2)] =
      some [("_id", Value.vstr "x"),
        ("$set", Value.vmapM [("a", Value.vint 1)]), ("b", Value.vint 2)] ∧
    ∀ k, mfind? [("_id", Value.vstr "x"),
        ("$set", Value.vmapM [("a", Value.vint 1)]), ("b", Value.vint 2)] k =
      match mfind? [("$set", Value.vmapM [("a", Value.vint 1)]),
          ("b", Value.vint 2)] k with
      | some v => some v
      | none =>
        if k = "_id" then some (mget [("_id", Value.vstr "x")] "_id")
        else none :=
  ⟨rfl, by simp, rfl,
    C2_replacement_copies_update [("_id", Value.vstr "x")]
      [("$set", Value.vmapM [("a", Value.vint 1)]), ("b", Value.vint 2)]
      [("_id", Value.vstr "x"), ("$set", Value.vmapM [("a", Value.vint 1)]),
        ("b", Value.vint 2)] rfl (by simp) rfl⟩

/-! ### Claim C3: ordering comparison semantics -/

/-- C3 counterexample: the claim "$gte and $lte are false for two equal
booleans" is false on the code: `compareGTE`/`compareLTE` are the strict
comparison OR `reflect.DeepEqual`, so they are true on two equal
booleans. -/
theorem C3_counterexample_gte_equal_booleans :
    compareGTE (Value.vbool true) (Value.vbool true) = true ∧
    compareLTE (Value.vbool true) (Value.vbool true) = true := by
  constructor
  · rw [compareGTE, deepEqual.eq_2]
    rfl
  · rw [compareLTE, deepEqual.eq_2]
    rfl

/-- C3 (amended): the strict operators `$gt`/`$lt` evaluate to true only
for two numbers of the same concrete kind (two `float64` or two `int`)
or two strings; `$gte`/`$lte` are the strict comparison OR deep
structural equality, so they evaluate to true only on such a pairing or
on two deeply equal operands of any type — and they are true on any two
deeply equal operands, including two equal booleans, sequences or
mappings. -/
theorem C3_ordering_comparisons :
    (∀ a b : Value, compareGT a b = true → ordKindPair a b = true) ∧
    (∀ a b : Value, compareLT a b = true → ordKindPair a b = true) ∧
    (∀ a b : Value, compareGTE a b = true →
      ordKindPair a b = true ∨ deepEqual a b = true) ∧
    (∀ a b : Value, compareLTE a b = true →
      ordKindPair a b = true ∨ deepEqual a b = true) ∧
    (∀ a b : Value, deepEqual a b = true →
      compareGTE a b = true ∧ compareLTE a b = true) := by
  have hgt : ∀ a b : Value, compareGT a b = true → ordKindPair a b = true := by
    intro a b h
    cases a <;> cases b <;>
      first
        | rfl
        | exact absurd (show false = true from h) (by decide)
  have hlt : ∀ a b : Value, compareLT a b = true → ordKindPair a b = true := by
    intro a b h
    cases a <;> cases b <;>
      first
        | rfl
        | exact absurd (show false = true from h) (by decide)
  refine ⟨hgt, hlt, ?_, ?_, ?_⟩
  · intro a b h
    rw [compareGTE, Bool.or_eq_true] at h
    exact h.imp (hgt a b) id
  · intro a b h
    rw [compareLTE, Bool.or_eq_true] at h
    exact h.imp (hlt a b) id
  · intro a b h
    constructor
    · rw [compareGTE, h, Bool.or_true]
    · rw [compareLTE, h, Bool.or_true]

/-- C3 witness: each conjunct of the amended theorem applied at a
concrete pair of operands. -/
theorem C3_witness :
    (compareGT (Value.vint 2) (Value.vint 1) = true ∧
      ordKindPair (Value.vint 2) (Value.vint 1) = true) ∧
    (compareLT (Value.vfloat 1) (Value.vfloat 2) = true ∧
      ordKindPair (Value.vfloat 1) (Value.vfloat 2) = true) ∧
    (compareGTE (Value.vfloat 2) (Value.vfloat 1) = true ∧
      (ordKindPair (Value.vfloat 2) (Value.vfloat 1) = true ∨
        deepEqual (Value.vfloat 2) (Value.vfloat 1) = true)) ∧
    (compareLTE (Value.vint 1) (Value.vint 2) = true ∧
      (ordKindPair (Value.vint 1) (Value.vint 2) = true ∨
        deepEqual (Value.vint 1) (Value.vint 2) = true)) ∧
    (deepEqual (Value.vbool false) (Value.vbool false) = true ∧
      compareGTE (Value.vbool false) (Value.vbool false) = true ∧
      compareLTE (Value.vbool false) (Value.vbool false) = true) := by
  have hde : deepEqual (Value.vbool false) (Value.vbool false) = true := by
    rw [deepEqual.eq_2]
    rfl
  have hgte : compareGTE (Value.vfloat 2) (Value.vfloat 1) = true := by
    rw [compareGTE]
    norm_num [compareGT]
  have hlte : compareLTE (Value.vint 1) (Value.vint 2) = true := by
    rw [compareLTE]
    norm_num [compareLT]
  refine ⟨⟨by decide, C3_ordering_comparisons.1 _ _ (by decide)⟩,
   ⟨by norm_num [compareLT], C3_ordering_comparisons.2.1 _ _ (by norm_num [compareLT])⟩,
   ⟨hgte, C3_ordering_comparisons.2.2.1 _ _ hgte⟩,
   ⟨hlte, C3_ordering_comparisons.2.2.2.1 _ _ hlte⟩,
   ⟨hde, C3_ordering_comparisons.2.2.2.2 _ _ hde⟩⟩

/-! ### Claim C4: totality of the filter evaluator -/

set_option maxHeartbeats 1000000 in
/-- C4: the claim "matchesFilter is total and never panics, including on
filters containing an empty-string key" is contradicted by the code: on
the filter `{"": nil}` the evaluator indexes `key[0]` of the empty
string, a runtime panic (modelled as `none`), against the evaluator's
documented total-function contract. -/
theorem C4_matchesFilter_panics_on_empty_key :
    matchesFilter [] [("", Value.vnull)] = none := by
  rw [matchesFilter.eq_3 _ _ _ _ (fun fs hh => Value.noConfusion hh),
    if_neg (show ¬(("" : String) = "$and") by decide),
    if_neg (show ¬(("" : String) = "$or") by decide),
    if_pos rfl]

/-! ### Claim C5: increment operator semantics -/

theorem applyUpdate_inc (D : Document) (m : List (String × Value)) :
    applyUpdate D [("$inc", Value.vmapM m)] = some (incAll D m) := by
  rw [applyUpdate, applyUpdateLoop.eq_2,
    if_neg (show ¬(("$inc" : String) = "$set") by decide),
    if_neg (show ¬(("$inc" : String) = "$unset") by decide),
    if_pos rfl, applyUpdateLoop]

/-- C5 counterexample: the claim "if D's current value at k is numeric,
applyUpdate sets k to the current value plus v ... for every numeric
representation including integer-typed values" is false on the code: for
current value `int 1` and increment `float64 2`, the result is
`float64 2` (the increment verbatim), not any representation of `3`. -/
theorem C5_counterexample_inc_int_current :
    (applyUpdate [("x", Value.vint 1)]
        [("$inc", Value.vmapM [("x", Value.vfloat 2)])]).map
      (fun r => mget r "x") = some (Value.vfloat 2) ∧
    Value.vfloat 2 ≠ Value.vint 3 ∧ Value.vfloat 2 ≠ Value.vfloat 3 := by
  refine ⟨rfl, fun h => Value.noConfusion h, fun h => ?_⟩
  have h2 : (2 : ℚ) = 3 := by injection h
  exact absurd h2 (by norm_num)

/-- C5 (amended): a `$inc` entry acts only when its increment value is a
`float64`: it then adds to a `float64` current value and overwrites any
other current value (absent, non-numeric, or `int`-typed) with the
increment verbatim; an entry whose increment value is not a `float64`
(including an `int`) is ignored entirely.  Other fields are unchanged. -/
theorem C5_inc_semantics (D : Document) (k : String) (v : Value)
    (R : Document)
    (h : applyUpdate D [("$inc", Value.vmapM [(k, v)])] = some R) :
    (mget R k =
      match v, mget D k with
      | Value.vfloat q, Value.vfloat c => Value.vfloat (c + q)
      | Value.vfloat q, _ => Value.vfloat q
      | _, _ => mget D k) ∧
    (∀ kp, ¬ kp = k → mget R kp = mget D kp) := by
  rw [applyUpdate_inc] at h
  injection h with hR
  subst hR
  constructor
  · cases v with
    | vfloat q =>
      cases hdk : mget D k <;>
        simp [incAll, List.foldl, hdk, mget_mset]
    | vnull => rfl
    | vbool b => rfl
    | vint n => rfl
    | vstr s => rfl
    | varr xs => rfl
    | vmapM mm => rfl
    | vmapU mm => rfl
    | varrM xs => rfl
  · intro kp hkp
    cases v with
    | vfloat q =>
      cases hdk : mget D k <;>
        simp [incAll, List.foldl, hdk, mget_mset, hkp]
    | vnull => rfl
    | vbool b => rfl
    | vint n => rfl
    | vstr s => rfl
    | varr xs => rfl
    | vmapM mm => rfl
    | vmapU mm => rfl
    | varrM xs => rfl

/-- C5 witness: the amended theorem applied to `D = {"x": 1.0}` and
increment `{"x": 2.0}`. -/
theorem C5_witness :
    applyUpdate [("x", Value.vfloat 1)]
        [("$inc", Value.vmapM [("x", Value.vfloat 2)])] =
      some [("x", Value.vfloat 3)] ∧
    (mget [("x", Value.vfloat 3)] "x" =
      match Value.vfloat 2, mget [("x", Value.vfloat 1)] "x" with
      | Value.vfloat q, Value.vfloat c => Value.vfloat (c + q)
      | Value.vfloat q, _ => Value.vfloat q
      | _, _ => mget [("x", Value.vfloat 1)] "x") ∧
    (∀ kp, ¬ kp = "x" →
      mget [("x", Value.vfloat 3)] kp = mget [("x", Value.vfloat 1)] kp) := by
  have happ : applyUpdate [("x", Value.vfloat 1)]
      [("$inc", Value.vmapM [("x", Value.vfloat 2)])] =
      some [("x", Value.vfloat 3)] := by
    rw [applyUpdate_inc]
    norm_num [incAll, mset, mhasB, msetEntry, mget, mfind?]
  exact ⟨happ,
    (C5_inc_semantics [("x", Value.vfloat 1)] "x" (Value.vfloat 2)
      [("x", Value.vfloat 3)] happ).1,
    (C5_inc_semantics [("x", Value.vfloat 1)] "x" (Value.vfloat 2)
      [("x", Value.vfloat 3)] happ).2⟩

/-! ### Claim C10: `$and`/`$or` operands of the wrong dynamic type -/

/-- C10: when the operand of a `$and` or `$or` key is not a `[]M` slice
(for example a `[]interface{}` produced by JSON decoding, a string, or a
number), the type assertion fails and the clause is silently skipped: it
imposes no constraint on the match, so such a `$or` excludes no
document. -/
theorem C10_logical_operand_type_mismatch_ignored (doc : Document)
    (v : Value) (rest : M) (h : isArrM v = false) :
    matchesFilter doc (("$and", v) :: rest) = matchesFilter doc rest ∧
    matchesFilter doc (("$or", v) :: rest) = matchesFilter doc rest := by
  cases v
  case varrM xs => simp [isArrM] at h
  all_goals {
    constructor
    · rw [matchesFilter.eq_3 _ _ _ _ (fun fs hh => Value.noConfusion hh),
        if_pos rfl]
    · rw [matchesFilter.eq_3 _ _ _ _ (fun fs hh => Value.noConfusion hh),
        if_neg (show ¬(("$or" : String) = "$and") by decide),
        if_pos rfl]
  }

/-- C10 witness: the theorem applied to a document matched against a
`$or` whose operand is a generic `[]interface{}` slice. -/
theorem C10_witness :
    isArrM (Value.varr [Value.vmapM [("a", Value.vint 2)]]) = false ∧
    (matchesFilter [("a", Value.vint 1)]
        [("$and", Value.varr [Value.vmapM [("a", Value.vint 2)]])] =
      matchesFilter [("a", Value.vint 1)] [] ∧
    matchesFilter [("a", Value.vint 1)]
        [("$or", Value.varr [Value.vmapM [("a", Value.vint 2)]])] =
      matchesFilter [("a", Value.vint 1)] []) :=
  ⟨rfl, C10_logical_operand_type_mismatch_ignored [("a", Value.vint 1)]
    (Value.varr [Value.vmapM [("a", Value.vint 2)]]) [] rfl⟩

/-! ### Claim C6: cursor pagination -/

/-- C6: for any cursor over an underlying sequence of length N,
reconfigured with `Skip s` and `Limit l` for `s ≥ 0`, `l ≥ 0`, `All`
recomputes the window from the full underlying sequence using the
current skip/limit values and returns exactly the
`max 0 (min l (N - s))` elements beginning at index `s`. -/
theorem C6_cursor_window (c : Cursor) (s l : Int) (hs : 0 ≤ s)
    (hl : 0 ≤ l) :
    ((c.Skip s).Limit l).All = (c.documents.drop s.toNat).take l.toNat ∧
    ((((c.Skip s).Limit l).All).length : Int) =
      max 0 (min l ((c.documents.length : Int) - s)) := by
  have key : ((c.Skip s).Limit l).All =
      (c.documents.drop s.toNat).take l.toNat := by
    show Cursor.All ⟨c.documents, c.index, l, s⟩ = _
    rw [Cursor.All]
    simp only []
    split_ifs with h1 h2 h3 h4 h5
    · rfl
    · exact (List.take_of_length_le (by omega)).symm
    · exfalso
      simp only [List.length_nil] at h4
      omega
    · rw [List.drop_eq_nil_of_le (by omega), List.take_nil]
    · rw [show s.toNat = 0 by omega, List.drop_zero]
    · rw [show s.toNat = 0 by omega, List.drop_zero]
      exact (List.take_of_length_le (by omega)).symm
  refine ⟨key, ?_⟩
  rw [key, List.length_take, List.length_drop]
  omega

/-- C6 witness: the theorem applied to a three-document cursor with
`Skip 1` and `Limit 5`. -/
theorem C6_witness :
    (0 : Int) ≤ 1 ∧ (0 : Int) ≤ 5 ∧
    ((((NewCursor [[("a", Value.vint 1)], [("a", Value.vint 2)],
        [("a", Value.vint 3)]]).Skip 1).Limit 5).All =
      (([[("a", Value.vint 1)], [("a", Value.vint 2)],
        [("a", Value.vint 3)]] : List Document).drop (1 : Int).toNat).take
        (5 : Int).toNat ∧
    (((((NewCursor [[("a", Value.vint 1)], [("a", Value.vint 2)],
        [("a", Value.vint 3)]]).Skip 1).Limit 5).All).length : Int) =
      max 0 (min 5 ((([[("a", Value.vint 1)], [("a", Value.vint 2)],
        [("a", Value.vint 3)]] : List Document).length : Int) - 1))) :=
  ⟨by decide, by decide,
    C6_cursor_window (NewCursor [[("a", Value.vint 1)],
      [("a", Value.vint 2)], [("a", Value.vint 3)]]) 1 5 (by decide)
      (by decide)⟩

/-! ### Claim C8: idempotence of update application -/

theorem applyUpdate_set_map (D : Document) (m : List (String × Value)) :
    applyUpdate D [("$set", Value.vmapM m)] = some (setAll D m) := by
  rw [applyUpdate, applyUpdateLoop.eq_2, if_pos rfl, applyUpdateLoop]

theorem applyUpdate_set_other (D : Document) (fields : Value)
    (h : ∀ m, fields = Value.vmapM m → False) :
    applyUpdate D [("$set", fields)] = some D := by
  rw [applyUpdate, applyUpdateLoop.eq_3 _ _ _ _ _ _ h, if_pos rfl,
    applyUpdateLoop]

theorem mfind?_setAll_setAll (D : Document) (m : List (String × Value))
    (k : String) :
    mfind? (setAll (setAll D m) m) k = mfind? (setAll D m) k := by
  rw [mfind?_setAll m (setAll D m) k]
  cases hf : findLastVal m k with
  | some v => rw [mfind?_setAll m D k, hf]
  | none => rfl

/-- C8: idempotence of the update applier, with document equality read
as Go map equality (`docEquiv`): applying a `$set`-only update or a
full-replacement update twice gives the same document as applying it
once, while there exist a document and a `$inc` (respectively `$push`)
update for which the twice-applied result differs from the once-applied
one. -/
theorem C8_idempotence :
    (∀ (D : Document) (fields : Value) (R R2 : Document),
      applyUpdate D [("$set", fields)] = some R →
      applyUpdate R [("$set", fields)] = some R2 →
      docEquiv R2 R) ∧
    (∀ (D : Document) (U : M) (R R2 : Document),
      hasReplKey U = true →
      applyUpdate D U = some R →
      applyUpdate R U = some R2 →
      docEquiv R2 R) ∧
    (∃ (D : Document) (U : M) (R R2 : Document),
      (∃ m, U = [("$inc", Value.vmapM m)]) ∧
      applyUpdate D U = some R ∧ applyUpdate R U = some R2 ∧
      ¬ docEquiv R2 R) ∧
    (∃ (D : Document) (U : M) (R R2 : Document),
      (∃ m, U = [("$push", Value.vmapM m)]) ∧
      applyUpdate D U = some R ∧ applyUpdate R U = some R2 ∧
      ¬ docEquiv R2 R) := by
  refine ⟨?_, ?_, ?_, ?_⟩
  · intro D fields R R2 h1 h2
    cases fields with
    | vmapM m =>
      rw [applyUpdate_set_map] at h1 h2
      injection h1 with h1
      injection h2 with h2
      subst h1
      subst h2
      intro k
      exact mfind?_setAll_setAll D m k
    | vnull =>
      rw [applyUpdate_set_other D _ (fun m hh => Value.noConfusion hh)] at h1
      injection h1 with h1
      subst h1
      rw [applyUpdate_set_other D _ (fun m hh => Value.noConfusion hh)] at h2
      injection h2 with h2
      subst h2
      intro k
      rfl
    | vbool b =>
      rw [applyUpdate_set_other D _ (fun m hh => Value.noConfusion hh)] at h1
      injection h1 with h1
      subst h1
      rw [applyUpdate_set_other D _ (fun m hh => Value.noConfusion hh)] at h2
      injection h2 with h2
      subst h2
      intro k
      rfl
    | vint n =>
      rw [applyUpdate_set_other D _ (fun m hh => Value.noConfusion hh)] at h1
      injection h1 with h1
      subst h1
      rw [applyUpdate_set_other D _ (fun m hh => Value.noConfusion hh)] at h2
      injection h2 with h2
      subst h2
      intro k
      rfl
    | vfloat q =>
      rw [applyUpdate_set_other D _ (fun m hh => Value.noConfusion hh)] at h1
      injection h1 with h1
      subst h1
      rw [applyUpdate_set_other D _ (fun m hh => Value.noConfusion hh)] at h2
      injection h2 with h2
      subst h2
      intro k
      rfl
    | vstr s =>
      rw [applyUpdate_set_other D _ (fun m hh => Value.noConfusion hh)] at h1
      injection h1 with h1
      subst h1
      rw [applyUpdate_set_other D _ (fun m hh => Value.noConfusion hh)] at h2
      injection h2 with h2
      subst h2
      intro k
      rfl
    | varr xs =>
      rw [applyUpdate_set_other D _ (fun m hh => Value.noConfusion hh)] at h1
      injection h1 with h1
      subst h1
      rw [applyUpdate_set_other D _ (fun m hh => Value.noConfusion hh)] at h2
      injection h2 with h2
      subst h2
      intro k
      rfl
    | vmapU mm =>
      rw [applyUpdate_set_other D _ (fun m hh => Value.noConfusion hh)] at h1
      injection h1 with h1
      subst h1
      rw [applyUpdate_set_other D _ (fun m hh => Value.noConfusion hh)] at h2
      injection h2 with h2
      subst h2
      intro k
      rfl
    | varrM xs =>
      rw [applyUpdate_set_other D _ (fun m hh => Value.noConfusion hh)] at h1
      injection h1 with h1
      subst h1
      rw [applyUpdate_set_other D _ (fun m hh => Value.noConfusion hh)] at h2
      injection h2 with h2
      subst h2
      intro k
      rfl
  · intro D U R R2 hrk h1 h2
    have hR : R = replaceDoc D U := applyUpdateLoop_repl D U U D R hrk h1
    have hR2 : R2 = replaceDoc R U := applyUpdateLoop_repl R U U R R2 hrk h2
    subst hR
    subst hR2
    intro k
    rw [mfind?_replaceDoc (replaceDoc D U) U k, mfind?_replaceDoc D U k]
    cases hf : findLastVal U k with
    | some v => rfl
    | none =>
      by_cases hk : k = "_id"
      · subst hk
        have : mget (replaceDoc D U) "_id" = mget D "_id" := by
          rw [mget, mfind?_replaceDoc, hf]
          simp [mget]
        rw [this]
      · simp [hk]
  · refine ⟨[], [("$inc", Value.vmapM [("x", Value.vfloat 1)])],
      [("x", Value.vfloat 1)], [("x", Value.vfloat (1 + 1))],
      ⟨[("x", Value.vfloat 1)], rfl⟩, ?_, ?_, ?_⟩
    · rw [applyUpdate_inc]
      rfl
    · rw [applyUpdate_inc]
      rfl
    · intro hd
      have h := hd "x"
      rw [show mfind? [("x", Value.vfloat (1 + 1))] "x" =
          some (Value.vfloat (1 + 1)) from rfl,
        show mfind? [("x", Value.vfloat 1)] "x" =
          some (Value.vfloat 1) from rfl] at h
      injection h with h
      injection h with h
      exact absurd h (by norm_num)
  · refine ⟨[], [("$push", Value.vmapM [("x", Value.vnull)])],
      [("x", Value.varr [Value.vnull])],
      [("x", Value.varr [Value.vnull, Value.vnull])],
      ⟨[("x", Value.vnull)], rfl⟩, ?_, ?_, ?_⟩
    · rw [applyUpdate, applyUpdateLoop.eq_2,
        if_neg (show ¬(("$push" : String) = "$set") by decide),
        if_neg (show ¬(("$push" : String) = "$unset") by decide),
        if_neg (show ¬(("$push" : String) = "$inc") by decide),
        if_pos rfl, applyUpdateLoop]
      rfl
    · rw [applyUpdate, applyUpdateLoop.eq_2,
        if_neg (show ¬(("$push" : String) = "$set") by decide),
        if_neg (show ¬(("$push" : String) = "$unset") by decide),
        if_neg (show ¬(("$push" : String) = "$inc") by decide),
        if_pos rfl, applyUpdateLoop]
      rfl
    · intro hd
      have h := hd "x"
      rw [show mfind? [("x", Value.varr [Value.vnull, Value.vnull])] "x" =
          some (Value.varr [Value.vnull, Value.vnull]) from rfl,
        show mfind? [("x", Value.varr [Value.vnull])] "x" =
          some (Value.varr [Value.vnull]) from rfl] at h
      injection h with h
      injection h with h
      simp at h

/-- C8 witness: the `$set`-only and full-replacement conjuncts applied
at concrete inputs. -/
theorem C8_witness :
    (applyUpdate [("a", Value.vint 1)]
        [("$set", Value.vmapM [("a", Value.vint 2)])] =
      some [("a", Value.vint 2)] ∧
    applyUpdate [("a", Value.vint 2)]
        [("$set", Value.vmapM [("a", Value.vint 2)])] =
      some [("a", Value.vint 2)] ∧
    docEquiv [("a", Value.vint 2)] [("a", Value.vint 2)]) ∧
    (hasReplKey [("b", Value.vint 1)] = true ∧
    applyUpdate [("_id", Value.vstr "x")] [("b", Value.vint 1)] =
      some [("_id", Value.vstr "x"), ("b", Value.vint 1)] ∧
    applyUpdate [("_id", Value.vstr "x"), ("b", Value.vint 1)]
        [("b", Value.vint 1)] =
      some [("_id", Value.vstr "x"), ("b", Value.vint 1)] ∧
    docEquiv [("_id", Value.vstr "x"), ("b", Value.vint 1)]
      [("_id", Value.vstr "x"), ("b", Value.vint 1)]) := by
  have hs1 : applyUpdate [("a", Value.vint 1)]
      [("$set", Value.vmapM [("a", Value.vint 2)])] =
      some [("a", Value.vint 2)] := by
    rw [applyUpdate_set_map]
    rfl
  have hs2 : applyUpdate [("a", Value.vint 2)]
      [("$set", Value.vmapM [("a", Value.vint 2)])] =
      some [("a", Value.vint 2)] := by
    rw [applyUpdate_set_map]
    rfl
  have hr1 : applyUpdate [("_id", Value.vstr "x")] [("b", Value.vint 1)] =
      some [("_id", Value.vstr "x"), ("b", Value.vint 1)] := rfl
  have hr2 : applyUpdate [("_id", Value.vstr "x"), ("b", Value.vint 1)]
      [("b", Value.vint 1)] =
      some [("_id", Value.vstr "x"), ("b", Value.vint 1)] := rfl
  exact ⟨⟨hs1, hs2, C8_idempotence.1 [("a", Value.vint 1)]
      (Value.vmapM [("a", Value.vint 2)]) _ _ hs1 hs2⟩,
    ⟨rfl, hr1, hr2, C8_idempotence.2.1 [("_id", Value.vstr "x")]
      [("b", Value.vint 1)] _ _ rfl hr1 hr2⟩⟩

/-! ### Claim C9: the `_id` fast path refines the general path -/

theorem deepEqual_vstr_right (x : Value) (id : String) :
    deepEqual x (Value.vstr id) =
      match x with
      | Value.vstr s => s == id
      | _ => false := by
  cases x
  case vstr s =>
    rw [deepEqual.eq_5]
  all_goals {
    rw [deepEqual.eq_10 _ _ (by intros; simp_all) (by intros; simp_all)
      (by intros; simp_all) (by intros; simp_all) (by intros; simp_all)
      (by intros; simp_all) (by intros; simp_all) (by intros; simp_all)
      (by intros; simp_all)]
  }

theorem idMatches_eq_deepEqual (id : String) (d : Document) :
    idMatches id d = deepEqual (mget d "_id") (Value.vstr id) := by
  rw [deepEqual_vstr_right (mget d "_id") id]
  rfl

theorem matchesFilter_id_eq (d : Document) (id : String) :
    matchesFilter d [("_id", Value.vstr id)] =
      some (deepEqual (mget d "_id") (Value.vstr id)) := by
  rw [matchesFilter.eq_3 _ _ _ _ (fun fs hh => Value.noConfusion hh),
    if_neg (show ¬(("_id" : String) = "$and") by decide),
    if_neg (show ¬(("_id" : String) = "$or") by decide),
    if_neg (show ¬(("_id" : String) = "") by decide),
    if_neg (show ¬(("_id".front) = '$') by decide)]
  show (if deepEqual (mget d "_id") (Value.vstr id) = true
      then matchesFilter d [] else some false) = _
  cases hde : deepEqual (mget d "_id") (Value.vstr id) <;>
    simp [hde, matchesFilter.eq_1]

theorem filterDocs_id (st : List Document) (id : String) :
    filterDocs st [("_id", Value.vstr id)] =
      some (st.filter (idMatches id)) := by
  induction st with
  | nil => rfl
  | cons d rest ih =>
    rw [filterDocs, matchesFilter_id_eq, ih, List.filter_cons,
      idMatches_eq_deepEqual]

theorem find?_eq_head?_filter {α : Type} (p : α → Bool) (l : List α) :
    l.find? p = (l.filter p).head? := by
  induction l with
  | nil => rfl
  | cons a l ih =>
    by_cases h : p a
    · simp [List.find?_cons_of_pos _ h, List.filter_cons_of_pos h]
    · rw [List.find?_cons_of_neg _ (by simpa using h),
        List.filter_cons_of_neg (by simpa using h), ih]

theorem All_limit_one (fd : List Document) :
    ((NewCursor fd).Limit 1).All = fd.take 1 := by
  show Cursor.All ⟨fd, 0, 1, 0⟩ = fd.take 1
  rw [Cursor.All]
  simp only []
  split_ifs with h1 h2 h3 h4 h5
  · omega
  · omega
  · exfalso
    simp only [List.length_nil] at h4
    omega
  · have hfd : fd = [] := List.eq_nil_of_length_eq_zero (by omega)
    rw [hfd]
    rfl
  · rfl
  · exact (List.take_of_length_le (by omega)).symm

/-- C9: for every store state (the sequence of documents the store
enumerates) and every filter that is exactly one identity-equality key
`{"_id": literal}`, `FindOne`'s direct point-lookup fast path returns
the same result as the general path (full enumeration filtered
client-side through the evaluator, taking the first match). -/
theorem C9_findOne_fastpath_refines_general (st : List Document)
    (id : String) :
    FindOne modelStore [("_id", Value.vstr id)] st =
      FindOneGeneral modelStore [("_id", Value.vstr id)] st := by
  have hFind : Find modelStore [("_id", Value.vstr id)] st =
      some (NewCursor (st.filter (idMatches id))) := by
    rw [Find]
    show (match filterDocs st [("_id", Value.vstr id)] with
      | none => none
      | some fd => some (NewCursor fd)) = _
    rw [filterDocs_id]
  have hgen : FindOneGeneral modelStore [("_id", Value.vstr id)] st =
      (match (st.filter (idMatches id)).take 1 with
       | [] => some (⟨none, none⟩ : SingleResult)
       | d :: _ => some ⟨some d, none⟩) := by
    rw [FindOneGeneral, hFind]
    show (match ((NewCursor (st.filter (idMatches id))).Limit 1).All with
       | [] => some (⟨none, none⟩ : SingleResult)
       | d :: _ => some ⟨some d, none⟩) = _
    rw [All_limit_one]
  have hfast : FindOne modelStore [("_id", Value.vstr id)] st =
      (match st.find? (idMatches id) with
       | some d => some (⟨some d, none⟩ : SingleResult)
       | none => some ⟨none, none⟩) := by
    rw [FindOne]
    show (match modelStore.findById id st with
      | .notFound => some (⟨none, none⟩ : SingleResult)
      | .decodeErr e => some ⟨none, some e⟩
      | .found d => some ⟨some d, none⟩) = _
    show (match (match st.find? (idMatches id) with
        | some d => FindByIdRes.found d
        | none => FindByIdRes.notFound) with
      | .notFound => some (⟨none, none⟩ : SingleResult)
      | .decodeErr e => some ⟨none, some e⟩
      | .found d => some ⟨some d, none⟩) = _
    cases st.find? (idMatches id) <;> rfl
  rw [hfast, hgen, find?_eq_head?_filter]
  cases st.filter (idMatches id) <;> rfl

/-! ### Claim C7: batch operations and partial failure -/

/-- A store whose insert always fails, exercising a batch failure at
operation index 0. -/
def storeFailAt0 : FFI Nat where
  insert _ st := (.error "boom", st)
  findById _ _ := .notFound
  update _ _ st := (.ok (), st)
  delete _ st := (1, st)
  findAll _ := none

/-- A store whose insert succeeds exactly once and then fails,
exercising a batch failure at operation index 1. -/
def storeFailAt1 : FFI Nat where
  insert _ st := if st = 0 then (.ok "id0", st + 1) else (.error "boom", st)
  findById _ _ := .notFound
  update _ _ st := (.ok (), st)
  delete _ st := (1, st)
  findAll _ := none

/-- A store whose per-document update fails on identity `"ufail"` and
whose point-lookup reports a decode failure on identity `"bad"`,
exercising per-document failures inside `UpdateMany`/`DeleteMany`
loops. -/
def storeUpdFail : FFI Nat where
  insert _ st := (.ok "id", st + 1)
  findById id _ :=
    if id = "bad" then .decodeErr "bad json"
    else .found [("_id", .vstr id)]
  update id _ st :=
    if id = "ufail" then (.error "disk full", st) else (.ok (), st + 1)
  delete _ st := (1, st + 1)
  findAll _ := none

/-- C7 counterexample: the claim "the error returned to the caller names
the index of the operation that failed" is false on the code: a batch
insert failing at index 0 (under `storeFailAt0`) and one failing at
index 1 (under `storeFailAt1`, whose first insert succeeds) return the
*identical* error value `"insert failed: boom"`, so the error cannot
name the failing index. -/
theorem C7_counterexample_error_lacks_index :
    (InsertOne storeFailAt0 [("a", Value.vint 1)] 0).1 =
      Except.error "insert failed: boom" ∧
    (InsertOne storeFailAt1 [("a", Value.vint 1)] 0).1 =
      Except.ok "id0" ∧
    (InsertOne storeFailAt1 [("a", Value.vint 2)] 1).1 =
      Except.error "insert failed: boom" ∧
    (InsertMany storeFailAt0
        [[("a", Value.vint 1)], [("a", Value.vint 2)]] 0).1 =
      Except.error "insert failed: boom" ∧
    (InsertMany storeFailAt1
        [[("a", Value.vint 1)], [("a", Value.vint 2)]] 0).1 =
      Except.error "insert failed: boom" :=
  ⟨rfl, rfl, rfl, rfl, rfl⟩

/-- C7 (amended): every batch operation (`InsertMany`, and the
per-document loops of `UpdateMany` and `DeleteMany`) stops at the first
per-document failure; effects already applied to earlier documents are
not rolled back (the returned store state is the state reached through
the successful prefix and the failing call); and the error returned to
the caller is the failing operation's own error verbatim — it does not
name the index of the operation that failed. -/
theorem C7_batch_stops_at_first_failure :
    (∀ (σ : Type) (ffi : FFI σ) (pre post : List Document) (d : Document)
        (st st1 st2 : σ) (ids : List String) (e : String),
      InsertMany ffi pre st = (.ok ids, st1) →
      InsertOne ffi d st1 = (.error e, st2) →
      InsertMany ffi (pre ++ d :: post) st = (.error e, st2)) ∧
    (∀ (σ : Type) (ffi : FFI σ) (update : M) (pre post : List Document)
        (d : Document) (st st1 st2 : σ) (n m : Int) (e : String),
      umLoop ffi update pre st n = some (.ok m, st1) →
      UpdateOne ffi [("_id", Value.vstr (DocID d))] update st1 =
        some (.error e, st2) →
      umLoop ffi update (pre ++ d :: post) st n = some (.error e, st2)) ∧
    (∀ (σ : Type) (ffi : FFI σ) (pre post : List Document) (d : Document)
        (st st1 st2 : σ) (n m : Int) (e : String),
      dmLoop ffi pre st n = some (.ok m, st1) →
      DeleteOne ffi [("_id", Value.vstr (DocID d))] st1 =
        some (.error e, st2) →
      dmLoop ffi (pre ++ d :: post) st n = some (.error e, st2)) := by
  refine ⟨?_, ?_, ?_⟩
  · intro σ ffi pre post d st st1 st2 ids e h1 h2
    induction pre generalizing st ids with
    | nil =>
      rw [InsertMany] at h1
      injection h1 with h1a h1b
      subst h1b
      rw [List.nil_append, InsertMany, h2]
    | cons p pre ih =>
      rw [InsertMany] at h1
      rw [List.cons_append, InsertMany]
      cases hio : InsertOne ffi p st with
      | mk res st' =>
        rw [hio] at h1
        cases res with
        | error e2 => simp at h1
        | ok idv =>
          have h1b : (match InsertMany ffi pre st' with
              | (Except.ok ids2, st3) => (Except.ok (idv :: ids2), st3)
              | (Except.error e2, st3) => (Except.error e2, st3)) =
              ((Except.ok ids, st1) :
                Except String (List String) × σ) := h1
          show (match InsertMany ffi (pre ++ d :: post) st' with
              | (Except.ok ids2, st3) => (Except.ok (idv :: ids2), st3)
              | (Except.error e2, st3) => (Except.error e2, st3)) =
              (Except.error e, st2)
          cases him : InsertMany ffi pre st' with
          | mk res2 st3 =>
            rw [him] at h1b
            cases res2 with
            | error e2 => simp at h1b
            | ok ids2 =>
              simp only [Prod.mk.injEq, Except.ok.injEq] at h1b
              obtain ⟨hids, hst⟩ := h1b
              rw [ih st' ids2 (by rw [him, hst])]
  · intro σ ffi update pre post d st st1 st2 n m e h1 h2
    induction pre generalizing st n with
    | nil =>
      rw [umLoop] at h1
      simp only [Option.some.injEq, Prod.mk.injEq, Except.ok.injEq] at h1
      obtain ⟨hnm, hst⟩ := h1
      rw [List.nil_append, umLoop, hst, h2]
    | cons p pre ih =>
      rw [umLoop] at h1
      rw [List.cons_append, umLoop]
      cases huo : UpdateOne ffi [("_id", Value.vstr (DocID p))] update st with
      | none =>
        rw [huo] at h1
        simp at h1
      | some res =>
        rw [huo] at h1
        obtain ⟨res1, st'⟩ := res
        cases res1 with
        | error e2 => simp at h1
        | ok u => exact ih st' (n + 1) h1
  · intro σ ffi pre post d st st1 st2 n m e h1 h2
    induction pre generalizing st n with
    | nil =>
      rw [dmLoop] at h1
      simp only [Option.some.injEq, Prod.mk.injEq, Except.ok.injEq] at h1
      obtain ⟨hnm, hst⟩ := h1
      rw [List.nil_append, dmLoop, hst, h2]
    | cons p pre ih =>
      rw [dmLoop] at h1
      rw [List.cons_append, dmLoop]
      cases hdo : DeleteOne ffi [("_id", Value.vstr (DocID p))] st with
      | none =>
        rw [hdo] at h1
        simp at h1
      | some res =>
        rw [hdo] at h1
        obtain ⟨res1, st'⟩ := res
        cases res1 with
        | error e2 => simp at h1
        | ok u => exact ih st' (n + u.deleted) h1

/-- C7 witness: each conjunct of the amended theorem applied at a
concrete store and batch — an insert batch failing at index 1 under
`storeFailAt1`, and update/delete loops failing on their second
document under `storeUpdFail`. -/
theorem C7_witness :
    (InsertMany storeFailAt1 [[("a", Value.vint 1)]] 0 =
        (Except.ok ["id0"], 1) ∧
      InsertOne storeFailAt1 [("a", Value.vint 2)] 1 =
        (Except.error "insert failed: boom", 1) ∧
      InsertMany storeFailAt1
          [[("a", Value.vint 1)], [("a", Value.vint 2)]] 0 =
        (Except.error "insert failed: boom", 1)) ∧
    (umLoop storeUpdFail [("$set", Value.vmapM [("a", Value.vint 1)])]
          [[("_id", Value.vstr "u1")]] 0 0 =
        some (Except.ok 1, 1) ∧
      UpdateOne storeUpdFail [("_id", Value.vstr "ufail")]
          [("$set", Value.vmapM [("a", Value.vint 1)])] 1 =
        some (Except.error "update failed: disk full", 1) ∧
      umLoop storeUpdFail [("$set", Value.vmapM [("a", Value.vint 1)])]
          [[("_id", Value.vstr "u1")], [("_id", Value.vstr "ufail")]] 0 0 =
        some (Except.error "update failed: disk full", 1)) ∧
    (dmLoop storeUpdFail [[("_id", Value.vstr "d1")]] 0 0 =
        some (Except.ok 1, 1) ∧
      DeleteOne storeUpdFail [("_id", Value.vstr "bad")] 1 =
        some (Except.error "bad json", 1) ∧
      dmLoop storeUpdFail
          [[("_id", Value.vstr "d1")], [("_id", Value.vstr "bad")]] 0 0 =
        some (Except.error "bad json", 1)) := by
  refine ⟨⟨rfl, rfl, ?_⟩, ⟨rfl, rfl, ?_⟩, ⟨rfl, rfl, ?_⟩⟩
  · exact C7_batch_stops_at_first_failure.1 Nat storeFailAt1
      [[("a", Value.vint 1)]] [] [("a", Value.vint 2)] 0 1 1 ["id0"]
      "insert failed: boom" rfl rfl
  · exact C7_batch_stops_at_first_failure.2.1 Nat storeUpdFail
      [("$set", Value.vmapM [("a", Value.vint 1)])]
      [[("_id", Value.vstr "u1")]] [] [("_id", Value.vstr "ufail")]
      0 1 1 0 1 "update failed: disk full" rfl rfl
  · exact C7_batch_stops_at_first_failure.2.2 Nat storeUpdFail
      [[("_id", Value.vstr "d1")]] [] [("_id", Value.vstr "bad")]
      0 1 1 0 1 "bad json" rfl rfl

end KeraDB
